import Mathlib

/-!
Shallow embedding of the invitation-lifecycle and eligibility core of the
`openedx-corporate` plugin (`corporate_partner_access`), together with proofs
about the claims on its specification.

Conventions of the embedding:
* Python `datetime` values are modelled as `Nat` instants; nullable columns as
  `Option`; Django model rows as Lean structures.
* `timezone.now()` calls are surfaced as explicit `now` parameters (one per
  call site, so distinct call sites may observe distinct instants).
* Code that can raise (`objects.get` lookups inside an atomic transaction)
  returns `Option`: `none` means the exception propagated and, because of
  `transaction.atomic`, nothing was persisted.
* A saved model instance in Django is an in-memory object (`inst`) plus the
  persisted row (`db`) plus the `_old_status` attribute stashed by the
  `pre_save` signal (`stash`).  `update_fields` is the list of field names
  actually written by `super().save()`.
-/

namespace Cpa

/-! ## Users and actors

The platform user model is an external collaborator (Django's
`get_user_model()`), not part of this repository.  Real `User` rows always
have `is_authenticated = True`; `AnonymousUser` has `id = None`,
`email = ""`, and is never staff.
-/

structure UserRec where
  id : Nat
  email : String
  isStaff : Bool
  isSuperuser : Bool
deriving DecidableEq, Repr

/-- The actor of a request: either Django's `AnonymousUser` or a real user. -/
inductive Actor where
  | anonymous
  | user (u : UserRec)
deriving DecidableEq, Repr

def Actor.isStaff : Actor → Bool
  | .anonymous => false
  | .user u => u.isStaff

def Actor.isSuperuser : Actor → Bool
  | .anonymous => false
  | .user u => u.isSuperuser

def Actor.isAuthenticated : Actor → Bool
  | .anonymous => false
  | .user _ => true

/-- `getattr(user, "id", None)`: `AnonymousUser.id` is `None`. -/
def Actor.id : Actor → Option Nat
  | .anonymous => none
  | .user u => some u.id

/-- `getattr(user, "email", None)`: `AnonymousUser.email` is `""`. -/
def Actor.email : Actor → String
  | .anonymous => ""
  | .user u => u.email

/-! ## String helpers (Python semantics over the char list) -/

/-- Python whitespace recognized by `str.strip()`. -/
def py_is_space (c : Char) : Bool :=
  c = ' ' || c = '\t' || c = '\n' || c = '\x0d' || c = '\x0b' || c = '\x0c'

/-- Python `str.strip()` on the underlying char list. -/
def py_strip (s : List Char) : List Char :=
  ((s.dropWhile py_is_space).reverse.dropWhile py_is_space).reverse

/-- Python `str.lower()` (ASCII fragment, which is all these emails use). -/
def py_lower (s : List Char) : List Char :=
  s.map Char.toLower

/-- Python `str.casefold()`; on the ASCII fragment it agrees with `lower()`. -/
def py_casefold (s : List Char) : List Char :=
  s.map Char.toLower

/-- Python `str.upper()` (ASCII fragment). -/
def py_upper (s : String) : String :=
  ⟨s.data.map Char.toUpper⟩

/-- `helpers/email.py` `normalize_email`: `None`/`""` are falsy and give
`None`; otherwise `value.strip().lower()`. -/
def normalize_email (value : Option String) : Option String :=
  match value with
  | none => none
  | some s => if s = "" then none else some ⟨py_lower (py_strip s.data)⟩

/-- Python truthiness of an `Optional[str]`: `None` and `""` are falsy. -/
def py_truthy : Option String → Bool
  | none => false
  | some s => s ≠ ""

/-! ## The invitation model (`CatalogCourseEnrollmentAllowed`) -/

/-- `Status.SENT` -/
def SENT : Int := 10
/-- `Status.ACCEPTED` -/
def ACCEPTED : Int := 20
/-- `Status.DECLINED` -/
def DECLINED : Int := 30

/-- A `CatalogCourseEnrollmentAllowed` row / instance.  `status` is kept as an
unconstrained integer because Python callers may pass any int. -/
structure CatalogCourseEnrollmentAllowed where
  id : Nat
  catalogCourseId : Nat
  userId : Option Nat
  status : Int
  inviteEmail : Option String
  invitedAt : Nat
  statusChangedAt : Nat
  acceptedAt : Option Nat
  declinedAt : Option Nat
deriving DecidableEq, Repr, Inhabited

abbrev CEA := CatalogCourseEnrollmentAllowed

/-! ## `policies/invitations.py` -/

/-- Result record of `compute_status_timestamps`. -/
structure StatusTimestampChanges where
  accepted_at : Option Nat
  declined_at : Option Nat
  touch_status_changed_at : Bool
deriving DecidableEq, Repr

/-- `compute_status_timestamps(invitation, new_status)`; the internal
`timezone.now()` is the explicit `now` argument. -/
def compute_status_timestamps (invitation : CEA) (new_status : Int) (now : Nat) :
    StatusTimestampChanges :=
  let old_status := invitation.status
  if new_status = ACCEPTED then
    { accepted_at := some (invitation.acceptedAt.getD now)
      declined_at := none
      touch_status_changed_at := decide (old_status ≠ new_status) }
  else if new_status = DECLINED then
    { accepted_at := none
      declined_at := some (invitation.declinedAt.getD now)
      touch_status_changed_at := decide (old_status ≠ new_status) }
  else
    { accepted_at := none
      declined_at := none
      touch_status_changed_at := decide (old_status ≠ new_status) }

/-- `can_user_act_on_invitation(user, invitation)`.  `if invitation.user_id:`
is non-null testing (Django auto primary keys are ≥ 1, hence truthy). -/
def can_user_act_on_invitation (user : Actor) (invitation : CEA) : Bool :=
  if user.isStaff || user.isSuperuser then true
  else
    match invitation.userId with
    | some uid => decide (some uid = user.id)
    | none =>
      let inv_email := normalize_email invitation.inviteEmail
      let usr_email := normalize_email (some user.email)
      py_truthy inv_email && py_truthy usr_email && decide (inv_email = usr_email)

/-! ## Compiled email regexes

`helpers/regex_cache.py` compiles each catalog's patterns (anchoring them with
`^...$` when missing) and `policies/catalogs.py` matches with `pat.fullmatch`,
whose semantics is whole-string membership in the pattern's language.  We
model a compiled pattern as an abstract syntax tree `Rx` (the fragment used by
the email rules: literals, the `.` wildcard, concatenation, alternation and
`*`), with a Brzozowski-derivative matcher `rmatch` as the executable
counterpart of `fullmatch`.  Anchors are no-ops under `fullmatch` and are
therefore not represented.  The `IGNORECASE` compile flag is immaterial here
because the matched email is casefolded first and the claim's patterns are
lowercase.
-/

inductive Rx where
  | zero
  | eps
  | char (c : Char)
  | any
  | cat (r s : Rx)
  | alt (r s : Rx)
  | star (r : Rx)
deriving DecidableEq, Repr

/-- Does the pattern accept the empty string? -/
def Rx.nullable : Rx → Bool
  | .zero => false
  | .eps => true
  | .char _ => false
  | .any => false
  | .cat r s => r.nullable && s.nullable
  | .alt r s => r.nullable || s.nullable
  | .star _ => true

/-- Brzozowski derivative of a pattern by one character. -/
def Rx.deriv : Rx → Char → Rx
  | .zero, _ => .zero
  | .eps, _ => .zero
  | .char c, a => if a = c then .eps else .zero
  | .any, _ => .eps
  | .cat r s, a =>
    if r.nullable then .alt (.cat (r.deriv a) s) (s.deriv a)
    else .cat (r.deriv a) s
  | .alt r s, a => .alt (r.deriv a) (s.deriv a)
  | .star r, a => .cat (r.deriv a) (.star r)

/-- Whole-string matching, the executable model of `Pattern.fullmatch`. -/
def Rx.rmatch (r : Rx) (s : List Char) : Bool :=
  (s.foldl Rx.deriv r).nullable

/-- Declarative language semantics of a pattern: `Matches r w` means the
entire word `w` is in the language of `r`. -/
inductive Matches : Rx → List Char → Prop where
  | eps : Matches .eps []
  | char (c : Char) : Matches (.char c) [c]
  | any (c : Char) : Matches .any [c]
  | cat {r s : Rx} {u v : List Char} :
      Matches r u → Matches s v → Matches (.cat r s) (u ++ v)
  | altl {r s : Rx} {w : List Char} : Matches r w → Matches (.alt r s) w
  | altr {r s : Rx} {w : List Char} : Matches s w → Matches (.alt r s) w
  | star0 {r : Rx} : Matches (.star r) []
  | stars {r : Rx} {u v : List Char} :
      Matches r u → Matches (.star r) v → Matches (.star r) (u ++ v)

theorem matches_nil_of_nullable : ∀ (r : Rx), r.nullable = true → Matches r [] := by
  intro r h
  induction r with
  | zero => simp [Rx.nullable] at h
  | eps => exact .eps
  | char c => simp [Rx.nullable] at h
  | any => simp [Rx.nullable] at h
  | cat r s ihr ihs =>
    simp [Rx.nullable] at h
    exact (List.nil_append ([] : List Char)) ▸ Matches.cat (ihr h.1) (ihs h.2)
  | alt r s ihr ihs =>
    simp [Rx.nullable] at h
    rcases h with h | h
    · exact .altl (ihr h)
    · exact .altr (ihs h)
  | star r _ => exact .star0

theorem nullable_of_matches_nil : ∀ {r : Rx} {w : List Char},
    Matches r w → w = [] → r.nullable = true := by
  intro r w h
  induction h with
  | eps => intro _; rfl
  | char c => intro hw; cases hw
  | any c => intro hw; cases hw
  | cat h1 h2 ih1 ih2 =>
    intro hw
    rcases List.append_eq_nil.mp hw with ⟨hu, hv⟩
    simp [Rx.nullable, ih1 hu, ih2 hv]
  | altl h ih => intro hw; simp [Rx.nullable, ih hw]
  | altr h ih => intro hw; simp [Rx.nullable, ih hw]
  | star0 => intro _; rfl
  | stars h1 h2 ih1 ih2 => intro _; rfl

theorem nullable_iff_matches_nil (r : Rx) : r.nullable = true ↔ Matches r [] :=
  ⟨matches_nil_of_nullable r, fun h => nullable_of_matches_nil h rfl⟩

theorem matches_of_deriv : ∀ (r : Rx) (c : Char) (w : List Char),
    Matches (r.deriv c) w → Matches r (c :: w) := by
  intro r
  induction r with
  | zero => intro c w h; cases h
  | eps => intro c w h; cases h
  | char a =>
    intro c w h
    simp only [Rx.deriv] at h
    by_cases hc : c = a
    · rw [if_pos hc] at h
      cases h
      rw [hc]
      exact .char a
    · rw [if_neg hc] at h; cases h
  | any =>
    intro c w h
    cases h
    exact .any c
  | cat r s ihr ihs =>
    intro c w h
    simp only [Rx.deriv] at h
    by_cases hn : r.nullable
    · rw [if_pos hn] at h
      cases h with
      | altl h =>
        cases h with
        | cat h1 h2 => exact (List.cons_append _ _ _).symm ▸ Matches.cat (ihr _ _ h1) h2
      | altr h =>
        have hc := Matches.cat (matches_nil_of_nullable r hn) (ihs _ _ h)
        rwa [List.nil_append] at hc
    · rw [if_neg hn] at h
      cases h with
      | cat h1 h2 => exact (List.cons_append _ _ _).symm ▸ Matches.cat (ihr _ _ h1) h2
  | alt r s ihr ihs =>
    intro c w h
    cases h with
    | altl h => exact .altl (ihr _ _ h)
    | altr h => exact .altr (ihs _ _ h)
  | star r ihr =>
    intro c w h
    cases h with
    | cat h1 h2 => exact (List.cons_append _ _ _).symm ▸ Matches.stars (ihr _ _ h1) h2

theorem matches_star_cons_aux : ∀ {t : Rx} {w2 : List Char}, Matches t w2 →
    ∀ {r : Rx} {c : Char} {w : List Char}, t = .star r → w2 = c :: w →
    ∃ u v, w = u ++ v ∧ Matches r (c :: u) ∧ Matches (.star r) v := by
  intro t w2 h
  induction h with
  | eps => intro r c w ht _; cases ht
  | char _ => intro r c w ht _; cases ht
  | any _ => intro r c w ht _; cases ht
  | cat _ _ _ _ => intro r c w ht _; cases ht
  | altl _ _ => intro r c w ht _; cases ht
  | altr _ _ => intro r c w ht _; cases ht
  | star0 => intro r c w _ hw; cases hw
  | stars h1 h2 ih1 ih2 =>
    intro r c w ht hw
    cases ht
    rename_i u v
    cases u with
    | nil =>
      rw [List.nil_append] at hw
      exact ih2 rfl hw
    | cons a u2 =>
      rw [List.cons_append] at hw
      cases hw
      exact ⟨u2, v, rfl, h1, h2⟩

theorem deriv_of_matches : ∀ (r : Rx) (c : Char) (w : List Char),
    Matches r (c :: w) → Matches (r.deriv c) w := by
  intro r
  induction r with
  | zero => intro c w h; cases h
  | eps => intro c w h; cases h
  | char a =>
    intro c w h
    cases h
    simp only [Rx.deriv, if_pos rfl]
    exact .eps
  | any =>
    intro c w h
    cases h
    exact .eps
  | cat r s ihr ihs =>
    intro c w h
    generalize hw : c :: w = w2 at h
    cases h with
    | cat h1 h2 =>
      rename_i u v
      cases u with
      | nil =>
        rw [List.nil_append] at hw
        subst hw
        have hn : r.nullable = true := nullable_of_matches_nil h1 rfl
        simp only [Rx.deriv, if_pos hn]
        exact .altr (ihs _ _ h2)
      | cons a u2 =>
        simp only [List.cons_append, List.cons.injEq] at hw
        obtain ⟨rfl, rfl⟩ := hw
        by_cases hn : r.nullable
        · simp only [Rx.deriv, if_pos hn]
          exact .altl (.cat (ihr _ _ h1) h2)
        · simp only [Rx.deriv, if_neg hn]
          exact .cat (ihr _ _ h1) h2
  | alt r s ihr ihs =>
    intro c w h
    cases h with
    | altl h => exact .altl (ihr _ _ h)
    | altr h => exact .altr (ihs _ _ h)
  | star r ihr =>
    intro c w h
    rcases matches_star_cons_aux h rfl rfl with ⟨u, v, hw, h1, h2⟩
    rw [hw]
    exact .cat (ihr _ _ h1) h2

/-- Correctness of the derivative matcher: `rmatch` decides whole-string
membership in the pattern's language. -/
theorem rmatch_iff_matches : ∀ (w : List Char) (r : Rx),
    r.rmatch w = true ↔ Matches r w := by
  intro w
  induction w with
  | nil => intro r; exact nullable_iff_matches_nil r
  | cons c w ih =>
    intro r
    constructor
    · intro h
      exact matches_of_deriv r c w ((ih (r.deriv c)).mp h)
    · intro h
      exact (ih (r.deriv c)).mpr (deriv_of_matches r c w h)

/-! ## `policies/catalogs.py` -/

/-- `email_matches_catalog(email, catalog_id)`: falsy email never matches;
otherwise the email is normalized with `casefold().strip()` and tested with
`fullmatch` against each compiled pattern of the catalog (here the patterns
are passed directly instead of going through the per-catalog cache). -/
def email_matches_catalog (patterns : List Rx) (email : String) : Bool :=
  if email = "" then false
  else
    let normalized := py_strip (py_casefold email.data)
    patterns.any (fun pat => pat.rmatch normalized)

/-- A `CorporatePartnerCatalogLearner` row (roster membership). -/
structure CatalogLearner where
  catalogId : Nat
  userId : Nat
  active : Bool
deriving DecidableEq, Repr

/-- A catalog, with the only field the eligibility policy reads. -/
structure Catalog where
  id : Nat
  isPublic : Bool
deriving DecidableEq, Repr

/-- `can_user_see_catalog_courses(user=user, catalog=catalog)`; the
`CatalogLearner.objects.filter(...).exists()` query is over `learners` and
the compiled regexes of the catalog are `patterns`. -/
def can_user_see_catalog_courses (user : Actor) (catalog : Catalog)
    (learners : List CatalogLearner) (patterns : List Rx) : Bool :=
  if user.isStaff || user.isSuperuser then true
  else if catalog.isPublic then true
  else if user.isAuthenticated = false then false
  else if learners.any (fun l =>
      l.catalogId = catalog.id && some l.userId = user.id && l.active) then true
  else email_matches_catalog patterns user.email

/-! ## `signals.py`: event emission on invitation saves -/

inductive EventKind where
  | created
  | updated
  | accepted
  | declined
deriving DecidableEq, Repr

/-- Payload of the four CATALOG_CEA events (`events/data.py`). -/
structure CatalogCourseEnrollmentAllowedData where
  id : Nat
  catalog_course_id : Nat
  status : String
  invited_at : Nat
  invite_email : Option String
  user_id : Option Nat
  accepted_at : Option Nat
  declined_at : Option Nat
deriving DecidableEq, Repr

/-- Django's `get_status_display()`: the choice label, or the raw value for an
integer outside the declared choices. -/
def get_status_display (s : Int) : String :=
  if s = SENT then "Sent"
  else if s = ACCEPTED then "Accepted"
  else if s = DECLINED then "Declined"
  else toString s

/-- `_to_event_data(instance)`. -/
def to_event_data (i : CEA) : CatalogCourseEnrollmentAllowedData :=
  { id := i.id
    catalog_course_id := i.catalogCourseId
    status := py_upper (get_status_display i.status)
    invited_at := i.invitedAt
    invite_email := i.inviteEmail
    user_id := i.userId
    accepted_at := i.acceptedAt
    declined_at := i.declinedAt }

/-- `emit_catalog_cea_events` (the `after_commit` closure, delivered because
the enclosing transaction committed).  `stash` is `instance._old_status` as
re-stashed by `_cea_stash_previous_status` on `pre_save`, i.e. the persisted
status read just before the write. -/
def emit_catalog_cea_events (created : Bool) (stash : Option Int) (i : CEA) :
    List (EventKind × CatalogCourseEnrollmentAllowedData) :=
  let data := to_event_data i
  if created then [(.created, data)]
  else
    let base := [(.updated, data)]
    match stash with
    | none => base
    | some old =>
      if old ≠ i.status then
        if i.status = ACCEPTED then base ++ [(.accepted, data)]
        else if i.status = DECLINED then base ++ [(.declined, data)]
        else base
      else base

/-! ## `CatalogCourseEnrollmentAllowed.save` (models.py) over a persisted row

The model is a non-creation save: the row `db` already exists (so the
`DoesNotExist` fallbacks never trigger), `inst` is the in-memory instance and
`stash` its `_old_status` attribute left over from any previous save of the
same Python object (`none` when the attribute is absent, e.g. on a freshly
loaded instance).  The pipeline is: the `save()` override body, then inside
`super().save()` the `pre_save` signal (which re-stashes `_old_status` from
the database), the SQL UPDATE restricted to `update_fields` (with the
`auto_now` column `status_changed_at` set to the save-time clock when
written), and finally the `post_save` signal emitting events after commit.
-/

structure ApplyResult where
  inst : CEA
  stash : Option Int
  db : CEA
  events : List (EventKind × CatalogCourseEnrollmentAllowedData)
deriving DecidableEq, Repr, Inhabited

/-- The SQL UPDATE of `super().save(update_fields=uf)`: only the named columns
take the instance's values; the rest keep their persisted values. -/
def cea_field_write (db inst : CEA) (uf : List String) : CEA :=
  { db with
    userId := if "user" ∈ uf then inst.userId else db.userId
    status := if "status" ∈ uf then inst.status else db.status
    inviteEmail := if "invite_email" ∈ uf then inst.inviteEmail else db.inviteEmail
    invitedAt := if "invited_at" ∈ uf then inst.invitedAt else db.invitedAt
    statusChangedAt := if "status_changed_at" ∈ uf then inst.statusChangedAt
      else db.statusChangedAt
    acceptedAt := if "accepted_at" ∈ uf then inst.acceptedAt else db.acceptedAt
    declinedAt := if "declined_at" ∈ uf then inst.declinedAt else db.declinedAt }

/-- The pattern `if self.<field> != value: setattr(...); touched.add(...)`
for the `status` field (with its companion `status_changed_at` touch used by
`apply_status`): conditionally assign and extend the touched names. -/
def upd_status (i : CEA) (t : List String) (old ns : Int) : CEA × List String :=
  if old ≠ ns then ({ i with status := ns }, t ++ ["status", "status_changed_at"])
  else (i, t)

/-- `if self.accepted_at != value: self.accepted_at = value; touched.add(...)`. -/
def upd_accepted (i : CEA) (t : List String) (v : Option Nat) : CEA × List String :=
  if i.acceptedAt ≠ v then ({ i with acceptedAt := v }, t ++ ["accepted_at"])
  else (i, t)

/-- `if self.declined_at != value: self.declined_at = value; touched.add(...)`. -/
def upd_declined (i : CEA) (t : List String) (v : Option Nat) : CEA × List String :=
  if i.declinedAt ≠ v then ({ i with declinedAt := v }, t ++ ["declined_at"])
  else (i, t)

/-- `CatalogCourseEnrollmentAllowed.save(update_fields=...)` on an existing
row, including the signal receivers.  `now` is the clock observed during this
save (both by the override body and by the `auto_now` column). -/
def CatalogCourseEnrollmentAllowed.save (inst : CEA) (stash : Option Int) (db : CEA)
    (update_fields : Option (List String)) (now : Nat) : ApplyResult :=
  -- save() body: old_status from the stashed attribute, else a DB query
  let old_status : Int :=
    match stash with
    | some s => s
    | none => db.status
  let desired_accepted : Option Nat :=
    if inst.status = ACCEPTED then some (inst.acceptedAt.getD now)
    else none
  let desired_declined : Option Nat :=
    if inst.status = DECLINED then some (inst.declinedAt.getD now)
    else none
  let p1 := upd_accepted inst [] desired_accepted
  let p2 := upd_declined p1.1 p1.2 desired_declined
  let status_changed : Bool := decide (old_status ≠ inst.status)
  let touched : List String := if status_changed then p2.2 ++ ["status_changed_at"]
    else p2.2
  let uf : Option (List String) :=
    match update_fields with
    | none => none
    | some uf0 => some (uf0 ++ touched)
  -- super().save(): pre_save re-stashes _old_status from the persisted row
  let stash2 : Option Int := some db.status
  -- auto_now: status_changed_at is refreshed when it is among the written columns
  let touch_sca : Bool :=
    match uf with
    | none => true
    | some l => decide ("status_changed_at" ∈ l)
  let inst3 := if touch_sca then { p2.1 with statusChangedAt := now } else p2.1
  let db2 : CEA :=
    match uf with
    | none => inst3
    | some l => cea_field_write db inst3 l
  -- post_save (created = False), delivered after commit
  let events := emit_catalog_cea_events false stash2 inst3
  ⟨inst3, stash2, db2, events⟩

/-! ## `services/invitations.py` -/

/-- The user-directory lookup `get_user_model().objects.get(email=...)`:
an exact match on the email column; `none` models the propagated
`User.DoesNotExist` (an SQL `email = NULL` comparison never matches, so a
null `invite_email` also fails). -/
def get_user_by_email (users : List UserRec) : Option String → Option UserRec
  | none => none
  | some s => users.find? (fun u => u.email = s)

/-- `InvitationService.apply_status(invitation, new_status, update_fields=...)`
run against the persisted row `db`; `stash` is the instance's `_old_status`
attribute.  `now_policy` and `now_save` are the two `timezone.now()`
observations (inside `compute_status_timestamps` and inside `save`).  A
`none` result is the propagated lookup exception: the atomic transaction
rolls back and nothing is persisted. -/
def InvitationService.apply_status (invitation : CEA) (stash : Option Int) (db : CEA)
    (users : List UserRec) (new_status : Int) (update_fields : List String)
    (now_policy now_save : Nat) : Option ApplyResult :=
  let changes := compute_status_timestamps invitation new_status now_policy
  let old_status := invitation.status
  match get_user_by_email users invitation.inviteEmail with
  | none => none
  | some u =>
    let p1 : CEA × List String :=
      ({ invitation with userId := some u.id }, update_fields ++ ["user"])
    let p2 := upd_status p1.1 p1.2 old_status new_status
    let p3 := upd_accepted p2.1 p2.2 changes.accepted_at
    let p4 := upd_declined p3.1 p3.2 changes.declined_at
    some (CatalogCourseEnrollmentAllowed.save p4.1 stash db (some p4.2) now_save)

/-! ## `services/catalogs_aggregate.py` -/

/-- The aggregation loop of `allowed_course_ids_for_current_user`: each
catalog's `get_course_runs()` either yields course-run ids or raises (the
`Except.error` case), in which case the exception is logged and the catalog
is skipped. -/
def cea_aggregate (catalogs : List (Except String (List String))) : Finset String :=
  catalogs.foldl
    (fun ids c =>
      match c with
      | .ok l => ids ∪ l.toFinset
      | .error _ => ids)
    ∅

/-- `allowed_course_ids_for_current_user(skip_cache)`: returns the allowed id
set together with the cache entry written for the current user's key. -/
def allowed_course_ids_for_current_user (cached : Option (Finset String))
    (skip_cache : Bool) (catalogs : List (Except String (List String))) :
    Finset String × Option (Finset String) :=
  match skip_cache, cached with
  | false, some c => (c, some c)
  | _, _ =>
    let ids := cea_aggregate catalogs
    (ids, some ids)

/-! ## Claim C2: the pure transition computation -/

/-- Claim C2: For every invitation, `compute_status_timestamps` returns: for
ACCEPTED, `accepted_at` preserved when already set and otherwise `now`, with
`declined_at` null; for DECLINED symmetrically; for SENT both null; and in
every case the touch flag is true iff the current status differs from the new
one. -/
theorem C2_compute_status_timestamps (inv : CEA) (ns : Int) (now : Nat) :
    (ns = ACCEPTED →
      (compute_status_timestamps inv ns now).declined_at = none ∧
      (inv.acceptedAt = none →
        (compute_status_timestamps inv ns now).accepted_at = some now) ∧
      (∀ t, inv.acceptedAt = some t →
        (compute_status_timestamps inv ns now).accepted_at = some t)) ∧
    (ns = DECLINED →
      (compute_status_timestamps inv ns now).accepted_at = none ∧
      (inv.declinedAt = none →
        (compute_status_timestamps inv ns now).declined_at = some now) ∧
      (∀ t, inv.declinedAt = some t →
        (compute_status_timestamps inv ns now).declined_at = some t)) ∧
    (ns = SENT →
      (compute_status_timestamps inv ns now).accepted_at = none ∧
      (compute_status_timestamps inv ns now).declined_at = none) ∧
    ((compute_status_timestamps inv ns now).touch_status_changed_at = true ↔
      inv.status ≠ ns) := by
  refine ⟨?_, ?_, ?_, ?_⟩
  · intro h
    subst h
    refine ⟨by simp [compute_status_timestamps], ?_, ?_⟩
    · intro hA
      simp [compute_status_timestamps, hA]
    · intro t hA
      simp [compute_status_timestamps, hA]
  · intro h
    subst h
    refine ⟨by simp [compute_status_timestamps, DECLINED, ACCEPTED], ?_, ?_⟩
    · intro hD
      simp [compute_status_timestamps, DECLINED, ACCEPTED, hD]
    · intro t hD
      simp [compute_status_timestamps, DECLINED, ACCEPTED, hD]
  · intro h
    subst h
    constructor <;> simp [compute_status_timestamps, SENT, ACCEPTED, DECLINED]
  · unfold compute_status_timestamps
    split_ifs <;> simp

def c2_inv : CEA := ⟨1, 1, none, 10, some "a@x.com", 0, 0, some 99, none⟩

/-- Witness for C2 at a concrete invitation with `accepted_at` already set. -/
theorem C2_witness :
    (compute_status_timestamps c2_inv ACCEPTED 5).accepted_at = some 99 ∧
    ((compute_status_timestamps c2_inv ACCEPTED 5).touch_status_changed_at = true ↔
      c2_inv.status ≠ ACCEPTED) := by
  have h := C2_compute_status_timestamps c2_inv ACCEPTED 5
  exact ⟨(h.1 rfl).2.2 99 rfl, h.2.2.2⟩

/-! ## Claim C10: totality of the transition computation over status values -/

/-- Claim C10: `compute_status_timestamps` is total over status values: any
`new_status` that is neither ACCEPTED (20) nor DECLINED (30) — including
values outside the declared enum — falls through to the SENT branch, giving
both timestamps null and the touch flag iff the status differs.  (In the
embedding totality is structural: the Lean function is total, mirroring the
Python function which ends in an unconditional return.) -/
theorem C10_compute_status_timestamps_total (inv : CEA) (ns : Int) (now : Nat)
    (h1 : ns ≠ ACCEPTED) (h2 : ns ≠ DECLINED) :
    compute_status_timestamps inv ns now =
      { accepted_at := none, declined_at := none,
        touch_status_changed_at := decide (inv.status ≠ ns) } := by
  unfold compute_status_timestamps
  rw [if_neg h1, if_neg h2]

def c10_inv : CEA := ⟨1, 1, none, 10, some "a@x.com", 0, 0, some 4, some 8⟩

/-- Witness for C10 at the out-of-enum status 99. -/
theorem C10_witness :
    compute_status_timestamps c10_inv 99 3 =
      { accepted_at := none, declined_at := none, touch_status_changed_at := true } := by
  have h := C10_compute_status_timestamps_total c10_inv 99 3 (by decide) (by decide)
  rw [h]
  decide

/-! ## Claim C6: authorization on invitations -/

/-- Claim C6: `can_user_act_on_invitation`: staff/superusers always may act;
on a bound invitation exactly the actor with the bound user's id may act
(anyone else, email match or not, may not); on an unbound invitation the
actor may act iff both emails are present and equal after trimming and
lowercasing. -/
theorem C6_can_user_act_on_invitation (user : Actor) (inv : CEA) :
    ((user.isStaff || user.isSuperuser) = true →
      can_user_act_on_invitation user inv = true) ∧
    ((user.isStaff || user.isSuperuser) = false →
      (∀ uid, inv.userId = some uid →
        (can_user_act_on_invitation user inv = true ↔ user.id = some uid)) ∧
      (inv.userId = none →
        (can_user_act_on_invitation user inv = true ↔
          ∃ e, e ≠ "" ∧ normalize_email inv.inviteEmail = some e ∧
            normalize_email (some user.email) = some e))) := by
  constructor
  · intro h
    simp [can_user_act_on_invitation, h]
  · intro h
    constructor
    · intro uid huid
      simp [can_user_act_on_invitation, h, huid, eq_comm]
    · intro huid
      simp only [can_user_act_on_invitation, h, Bool.false_eq_true, if_false, huid]
      cases hI : normalize_email inv.inviteEmail with
      | none => simp [py_truthy]
      | some a =>
        cases hU : normalize_email (some user.email) with
        | none => simp [py_truthy]
        | some b =>
          simp only [py_truthy, Bool.and_eq_true, decide_eq_true_eq, ne_eq,
            Option.some.injEq]
          aesop

def c6_staff : Actor := .user ⟨9, "x@y.z", true, false⟩
def c6_inv : CEA := ⟨1, 1, none, 10, some " Jane@Example.com ", 0, 0, none, none⟩
def c6_actor : Actor := .user ⟨3, "jane@example.com", false, false⟩

/-- Witness for C6: a staff actor may always act, and on an unbound
invitation a case-insensitive email match (after trimming) suffices. -/
theorem C6_witness :
    can_user_act_on_invitation c6_staff c6_inv = true ∧
    can_user_act_on_invitation c6_actor c6_inv = true := by
  refine ⟨(C6_can_user_act_on_invitation c6_staff c6_inv).1 (by decide), ?_⟩
  exact (((C6_can_user_act_on_invitation c6_actor c6_inv).2 (by decide)).2 rfl).mpr
    ⟨"jane@example.com", by decide, by decide, by decide⟩

/-! ## Claim C9: per-user aggregation skips failing catalogs -/

theorem mem_cea_aggregate_foldl (x : String) :
    ∀ (cats : List (Except String (List String))) (acc : Finset String),
    (x ∈ cats.foldl
        (fun ids c =>
          match c with
          | .ok l => ids ∪ l.toFinset
          | .error _ => ids)
        acc) ↔ x ∈ acc ∨ ∃ l, Except.ok l ∈ cats ∧ x ∈ l := by
  intro cats
  induction cats with
  | nil => simp
  | cons c cats ih =>
    intro acc
    cases c with
    | ok l =>
      rw [List.foldl_cons]
      simp only [ih (acc ∪ l.toFinset), Finset.mem_union, List.mem_toFinset,
        List.mem_cons]
      constructor
      · rintro ((h | h) | ⟨l2, hmem, hx⟩)
        · exact Or.inl h
        · exact Or.inr ⟨l, Or.inl rfl, h⟩
        · exact Or.inr ⟨l2, Or.inr hmem, hx⟩
      · rintro (h | ⟨l2, (hl | hmem), hx⟩)
        · exact Or.inl (Or.inl h)
        · cases hl
          exact Or.inl (Or.inr hx)
        · exact Or.inr ⟨l2, hmem, hx⟩
    | error e =>
      rw [List.foldl_cons]
      simp only [ih acc, List.mem_cons]
      constructor
      · rintro (h | ⟨l2, hmem, hx⟩)
        · exact Or.inl h
        · exact Or.inr ⟨l2, Or.inr hmem, hx⟩
      · rintro (h | ⟨l2, (hl | hmem), hx⟩)
        · exact Or.inl h
        · cases hl
        · exact Or.inr ⟨l2, hmem, hx⟩

/-- Claim C9: In the per-user aggregation (`skip_cache=True`, so the loop
actually runs), a catalog whose `get_course_runs()` raises contributes
nothing and never aborts the fold: the result equals the aggregation without
that catalog, and it is exactly the union of the ids of the successfully
resolved catalogs. -/
theorem C9_aggregation_skips_failures (cached : Option (Finset String))
    (pre post : List (Except String (List String))) (e : String) :
    (allowed_course_ids_for_current_user cached true
        (pre ++ Except.error e :: post)).1
      = (allowed_course_ids_for_current_user cached true (pre ++ post)).1 ∧
    (∀ x : String,
      x ∈ (allowed_course_ids_for_current_user cached true
          (pre ++ Except.error e :: post)).1 ↔
        ∃ l, Except.ok l ∈ pre ++ post ∧ x ∈ l) := by
  have hrun : ∀ cats, (allowed_course_ids_for_current_user cached true cats).1
      = cea_aggregate cats := by
    intro cats
    cases cached <;> rfl
  have hskip : cea_aggregate (pre ++ Except.error e :: post)
      = cea_aggregate (pre ++ post) := by
    unfold cea_aggregate
    rw [List.foldl_append, List.foldl_append, List.foldl_cons]
  constructor
  · rw [hrun, hrun, hskip]
  · intro x
    rw [hrun, hskip]
    unfold cea_aggregate
    simpa using mem_cea_aggregate_foldl x (pre ++ post) ∅

/-! ## Claim C8: email-regex matching is full-string -/

/-- A literal string as a pattern (the `@acme\.com` tail: every character,
including the escaped dot, matches itself). -/
def rx_of_string (s : String) : Rx :=
  s.data.foldr (fun c r => .cat (.char c) r) .eps

/-- The compiled form of the rule `.*@acme\.com` (anchoring is a no-op under
`fullmatch`). -/
def acme_rule : Rx := .cat (.star .any) (rx_of_string "@acme.com")

/-- Claim C8: Email-regex eligibility matching is full-string: an email
matches a catalog iff the entire normalized email is in the language of one
of the catalog's patterns (no partial/substring match can succeed), the rule
`.*@acme\.com` matches `bob@acme.com`, and `bob@acme.com.evil.org` — whose
proper prefix `bob@acme.com` does match — is rejected. -/
theorem C8_email_regex_fullmatch :
    (∀ (patterns : List Rx) (email : String), email ≠ "" →
      (email_matches_catalog patterns email = true ↔
        ∃ pat ∈ patterns, Matches pat (py_strip (py_casefold email.data)))) ∧
    email_matches_catalog [acme_rule] "bob@acme.com" = true ∧
    email_matches_catalog [acme_rule] "bob@acme.com.evil.org" = false ∧
    acme_rule.rmatch "bob@acme.com".data = true ∧
    acme_rule.rmatch "bob@acme.com.evil.org".data = false := by
  refine ⟨?_, by decide, by decide, by decide, by decide⟩
  intro patterns email h
  unfold email_matches_catalog
  rw [if_neg h]
  simp only [List.any_eq_true, rmatch_iff_matches]

/-- Witness for C8: instantiating the full-string characterization at the
concrete rule and email shows the whole normalized string is matched. -/
theorem C8_witness :
    ∃ pat ∈ [acme_rule], Matches pat (py_strip (py_casefold "bob@acme.com".data)) :=
  (C8_email_regex_fullmatch.1 [acme_rule] "bob@acme.com" (by decide)).mp (by decide)

/-! ## Claim C7: catalog eligibility -/

/-- Claim C7: `can_user_see_catalog_courses` grants visibility to an active
roster member even on a private catalog with no regex match; to a user whose
email matches a catalog regex even without a roster row; to staff/superusers
regardless of catalog flags; and to nobody else unless the catalog is public
(in particular unauthenticated users are denied on non-public catalogs). -/
theorem C7_can_user_see_catalog_courses (u : UserRec) (catalog : Catalog)
    (learners : List CatalogLearner) (patterns : List Rx) :
    ((⟨catalog.id, u.id, true⟩ : CatalogLearner) ∈ learners →
      can_user_see_catalog_courses (.user u) catalog learners patterns = true) ∧
    (email_matches_catalog patterns u.email = true →
      can_user_see_catalog_courses (.user u) catalog learners patterns = true) ∧
    (∀ a : Actor, (a.isStaff || a.isSuperuser) = true →
      can_user_see_catalog_courses a catalog learners patterns = true) ∧
    (catalog.isPublic = false →
      can_user_see_catalog_courses .anonymous catalog learners patterns = false) ∧
    ((u.isStaff || u.isSuperuser) = false → catalog.isPublic = false →
      (∀ l ∈ learners,
        ¬(l.catalogId = catalog.id ∧ l.userId = u.id ∧ l.active = true)) →
      email_matches_catalog patterns u.email = false →
      can_user_see_catalog_courses (.user u) catalog learners patterns = false) := by
  refine ⟨?_, ?_, ?_, ?_, ?_⟩
  · intro hmem
    unfold can_user_see_catalog_courses
    split_ifs with h1 h2 h3 h4
    · rfl
    · rfl
    · simp [Actor.isAuthenticated] at h3
    · rfl
    · exact absurd (List.any_eq_true.mpr ⟨_, hmem, by simp [Actor.id]⟩) h4
  · intro hm
    unfold can_user_see_catalog_courses
    split_ifs with h1 h2 h3 h4
    · rfl
    · rfl
    · simp [Actor.isAuthenticated] at h3
    · rfl
    · exact hm
  · intro a ha
    simp [can_user_see_catalog_courses, ha]
  · intro hpub
    simp [can_user_see_catalog_courses, Actor.isStaff, Actor.isSuperuser,
      Actor.isAuthenticated, hpub]
  · intro hstaff hpub hlearn hregex
    unfold can_user_see_catalog_courses
    split_ifs with h1 h2 h3 h4
    · simp only [Actor.isStaff, Actor.isSuperuser] at h1
      rw [hstaff] at h1
      cases h1
    · exact absurd h2 (by simp [hpub])
    · rfl
    · exfalso
      rcases List.any_eq_true.mp h4 with ⟨l, hl, hp⟩
      simp only [Actor.id, Bool.and_eq_true, decide_eq_true_eq,
        Option.some.injEq] at hp
      exact hlearn l hl ⟨hp.1.1, hp.1.2, hp.2⟩
    · exact hregex

def c7_catalog : Catalog := ⟨5, false⟩
def c7_user : UserRec := ⟨3, "who@nowhere.org", false, false⟩
def c7_learners : List CatalogLearner := [⟨5, 3, true⟩]

/-- Witness for C7: an active roster member sees a private catalog's courses
even though no regex matches their email. -/
theorem C7_witness :
    can_user_see_catalog_courses (.user c7_user) c7_catalog c7_learners [] = true :=
  (C7_can_user_see_catalog_courses c7_user c7_catalog c7_learners []).1 (by decide)

/-! ## Claim C5: events of a non-creation save -/

theorem emit_false_kinds (o : Int) (i : CEA) :
    (emit_catalog_cea_events false (some o) i).map Prod.fst
      = EventKind.updated ::
        (if o ≠ i.status then
          if i.status = ACCEPTED then [EventKind.accepted]
          else if i.status = DECLINED then [EventKind.declined]
          else []
        else []) := by
  simp only [emit_catalog_cea_events]
  split_ifs <;> simp_all

theorem upd_accepted_fst_status (i : CEA) (t : List String) (v : Option Nat) :
    (upd_accepted i t v).1.status = i.status := by
  unfold upd_accepted
  split_ifs <;> rfl

theorem upd_declined_fst_status (i : CEA) (t : List String) (v : Option Nat) :
    (upd_declined i t v).1.status = i.status := by
  unfold upd_declined
  split_ifs <;> rfl

theorem save_events_spec (inst : CEA) (stash : Option Int) (db : CEA)
    (uf : Option (List String)) (now : Nat) :
    (CatalogCourseEnrollmentAllowed.save inst stash db uf now).events
      = emit_catalog_cea_events false (some db.status)
          ((CatalogCourseEnrollmentAllowed.save inst stash db uf now).inst) ∧
    ((CatalogCourseEnrollmentAllowed.save inst stash db uf now).inst).status
      = inst.status := by
  refine ⟨rfl, ?_⟩
  simp only [CatalogCourseEnrollmentAllowed.save]
  split_ifs <;>
    simp [upd_declined_fst_status, upd_accepted_fst_status]

/-- Claim C5: Every non-creation save of an invitation emits UPDATED
unconditionally (and never CREATED), and emits ACCEPTED (resp. DECLINED) iff
the saved status is that terminal value and differs from the previously
persisted status; in particular re-applying the already persisted status
emits no ACCEPTED/DECLINED event, while UPDATED still fires. -/
theorem C5_save_event_emission (inst : CEA) (stash : Option Int) (db : CEA)
    (uf : Option (List String)) (now : Nat) :
    EventKind.updated ∈
      ((CatalogCourseEnrollmentAllowed.save inst stash db uf now).events.map
        Prod.fst) ∧
    EventKind.created ∉
      ((CatalogCourseEnrollmentAllowed.save inst stash db uf now).events.map
        Prod.fst) ∧
    (EventKind.accepted ∈
        ((CatalogCourseEnrollmentAllowed.save inst stash db uf now).events.map
          Prod.fst) ↔
      (db.status ≠ inst.status ∧ inst.status = ACCEPTED)) ∧
    (EventKind.declined ∈
        ((CatalogCourseEnrollmentAllowed.save inst stash db uf now).events.map
          Prod.fst) ↔
      (db.status ≠ inst.status ∧ inst.status = DECLINED)) := by
  obtain ⟨hev, hst⟩ := save_events_spec inst stash db uf now
  rw [hev, emit_false_kinds, hst]
  refine ⟨by simp, ?_, ?_, ?_⟩
  · split_ifs <;> simp
  · split_ifs with h1 h2 h3 <;> simp_all [ACCEPTED, DECLINED]
  · split_ifs with h1 h2 h3 <;> simp_all [ACCEPTED, DECLINED]

def c5_db : CEA := ⟨1, 1, some 7, 10, some "a@x.com", 0, 0, none, none⟩
def c5_inst : CEA := ⟨1, 1, some 7, 20, some "a@x.com", 0, 0, some 3, none⟩

/-- Witness for C5: a save that transitions SENT → ACCEPTED emits UPDATED. -/
theorem C5_witness :
    EventKind.updated ∈
      ((CatalogCourseEnrollmentAllowed.save c5_inst none c5_db
        (some ["user"]) 7).events.map Prod.fst) :=
  (C5_save_event_emission c5_inst none c5_db (some ["user"]) 7).1

/-! ## Claim C1: the status/timestamp invariant after `apply_status` -/

theorem upd_status_fst_status (i : CEA) (t : List String) (old ns : Int)
    (h : old = i.status) : (upd_status i t old ns).1.status = ns := by
  unfold upd_status
  split_ifs with h2
  · rfl
  · rw [← h]
    exact not_not.mp h2

theorem upd_status_fst_acceptedAt (i : CEA) (t : List String) (old ns : Int) :
    (upd_status i t old ns).1.acceptedAt = i.acceptedAt := by
  unfold upd_status
  split_ifs <;> rfl

theorem upd_status_fst_declinedAt (i : CEA) (t : List String) (old ns : Int) :
    (upd_status i t old ns).1.declinedAt = i.declinedAt := by
  unfold upd_status
  split_ifs <;> rfl

theorem upd_status_snd_sub (i : CEA) (t : List String) (old ns : Int) :
    t ⊆ (upd_status i t old ns).2 := by
  unfold upd_status
  split_ifs
  · exact List.subset_append_left t _
  · exact List.Subset.refl t

theorem upd_status_snd_mem (i : CEA) (t : List String) (old ns : Int)
    (h : old ≠ ns) : "status" ∈ (upd_status i t old ns).2 := by
  unfold upd_status
  rw [if_pos h]
  simp

theorem upd_accepted_fst_acceptedAt (i : CEA) (t : List String) (v : Option Nat) :
    (upd_accepted i t v).1.acceptedAt = v := by
  unfold upd_accepted
  split_ifs with h
  · rfl
  · exact not_not.mp h

theorem upd_accepted_fst_declinedAt (i : CEA) (t : List String) (v : Option Nat) :
    (upd_accepted i t v).1.declinedAt = i.declinedAt := by
  unfold upd_accepted
  split_ifs <;> rfl

theorem upd_accepted_snd_sub (i : CEA) (t : List String) (v : Option Nat) :
    t ⊆ (upd_accepted i t v).2 := by
  unfold upd_accepted
  split_ifs
  · exact List.subset_append_left t _
  · exact List.Subset.refl t

theorem upd_accepted_snd_mem (i : CEA) (t : List String) (v : Option Nat)
    (h : i.acceptedAt ≠ v) : "accepted_at" ∈ (upd_accepted i t v).2 := by
  unfold upd_accepted
  rw [if_pos h]
  simp

theorem upd_declined_fst_declinedAt (i : CEA) (t : List String) (v : Option Nat) :
    (upd_declined i t v).1.declinedAt = v := by
  unfold upd_declined
  split_ifs with h
  · rfl
  · exact not_not.mp h

theorem upd_declined_fst_acceptedAt (i : CEA) (t : List String) (v : Option Nat) :
    (upd_declined i t v).1.acceptedAt = i.acceptedAt := by
  unfold upd_declined
  split_ifs <;> rfl

theorem upd_declined_snd_sub (i : CEA) (t : List String) (v : Option Nat) :
    t ⊆ (upd_declined i t v).2 := by
  unfold upd_declined
  split_ifs
  · exact List.subset_append_left t _
  · exact List.Subset.refl t

theorem upd_declined_snd_mem (i : CEA) (t : List String) (v : Option Nat)
    (h : i.declinedAt ≠ v) : "declined_at" ∈ (upd_declined i t v).2 := by
  unfold upd_declined
  rw [if_pos h]
  simp

theorem ite_sca_status (c : Prop) [Decidable c] (p : CEA) (n : Nat) :
    (if c then { p with statusChangedAt := n } else p).status = p.status := by
  split_ifs <;> rfl

theorem ite_sca_acceptedAt (c : Prop) [Decidable c] (p : CEA) (n : Nat) :
    (if c then { p with statusChangedAt := n } else p).acceptedAt = p.acceptedAt := by
  split_ifs <;> rfl

theorem ite_sca_declinedAt (c : Prop) [Decidable c] (p : CEA) (n : Nat) :
    (if c then { p with statusChangedAt := n } else p).declinedAt = p.declinedAt := by
  split_ifs <;> rfl

/-- What `save` persists for an instance already shaped by the transition
policy (a timestamp is set exactly on the matching terminal status): the
`save` body re-derives the same timestamps, so only the caller's
`update_fields` decide which of the three columns are written. -/
theorem save_db_policy (inst : CEA) (stash : Option Int) (db : CEA)
    (uf0 : List String) (now : Nat)
    (hacc1 : inst.status = ACCEPTED → inst.acceptedAt ≠ none)
    (hacc2 : ¬inst.status = ACCEPTED → inst.acceptedAt = none)
    (hdec1 : inst.status = DECLINED → inst.declinedAt ≠ none)
    (hdec2 : ¬inst.status = DECLINED → inst.declinedAt = none) :
    (CatalogCourseEnrollmentAllowed.save inst stash db (some uf0) now).db.status
        = (if "status" ∈ uf0 then inst.status else db.status) ∧
    (CatalogCourseEnrollmentAllowed.save inst stash db (some uf0) now).db.acceptedAt
        = (if "accepted_at" ∈ uf0 then inst.acceptedAt else db.acceptedAt) ∧
    (CatalogCourseEnrollmentAllowed.save inst stash db (some uf0) now).db.declinedAt
        = (if "declined_at" ∈ uf0 then inst.declinedAt else db.declinedAt) := by
  have hda : (if inst.status = ACCEPTED then some (inst.acceptedAt.getD now) else none)
      = inst.acceptedAt := by
    by_cases h : inst.status = ACCEPTED
    · rw [if_pos h]
      rcases ho : inst.acceptedAt with _ | x
      · exact absurd ho (hacc1 h)
      · rfl
    · rw [if_neg h, hacc2 h]
  have hdd : (if inst.status = DECLINED then some (inst.declinedAt.getD now) else none)
      = inst.declinedAt := by
    by_cases h : inst.status = DECLINED
    · rw [if_pos h]
      rcases ho : inst.declinedAt with _ | x
      · exact absurd ho (hdec1 h)
      · rfl
    · rw [if_neg h, hdec2 h]
  have hp1 : upd_accepted inst ([] : List String) inst.acceptedAt = (inst, []) := by
    unfold upd_accepted
    simp
  have hp2 : upd_declined inst ([] : List String) inst.declinedAt = (inst, []) := by
    unfold upd_declined
    simp
  simp only [CatalogCourseEnrollmentAllowed.save, hda, hdd, hp1, hp2]
  by_cases hbc : (match stash with | some s => s | none => db.status) ≠ inst.status <;>
    refine ⟨?_, ?_, ?_⟩ <;>
      simp [hbc, cea_field_write, ite_sca_status, ite_sca_acceptedAt,
        ite_sca_declinedAt, List.mem_append]

theorem compute_accepted_some (db : CEA) (ns : Int) (nP : Nat) (h : ns = ACCEPTED) :
    (compute_status_timestamps db ns nP).accepted_at
      = some (db.acceptedAt.getD nP) := by
  subst h
  simp [compute_status_timestamps]

theorem compute_accepted_none (db : CEA) (ns : Int) (nP : Nat) (h : ns ≠ ACCEPTED) :
    (compute_status_timestamps db ns nP).accepted_at = none := by
  unfold compute_status_timestamps
  rw [if_neg h]
  split_ifs <;> rfl

theorem compute_declined_some (db : CEA) (ns : Int) (nP : Nat) (h : ns = DECLINED) :
    (compute_status_timestamps db ns nP).declined_at
      = some (db.declinedAt.getD nP) := by
  subst h
  simp [compute_status_timestamps, DECLINED, ACCEPTED]

theorem compute_declined_none (db : CEA) (ns : Int) (nP : Nat) (h : ns ≠ DECLINED) :
    (compute_status_timestamps db ns nP).declined_at = none := by
  unfold compute_status_timestamps
  by_cases h1 : ns = ACCEPTED
  · rw [if_pos h1]
  · rw [if_neg h1, if_neg h]

/-- What a successful `apply_status` leaves in the database: the new status,
and exactly the timestamps computed by `compute_status_timestamps`. -/
theorem apply_status_persists
    (db : CEA) (stash : Option Int) (users : List UserRec) (ns : Int)
    (uf : List String) (nP nS : Nat) (r : ApplyResult)
    (h : InvitationService.apply_status db stash db users ns uf nP nS = some r) :
    r.db.status = ns ∧
    r.db.acceptedAt = (compute_status_timestamps db ns nP).accepted_at ∧
    r.db.declinedAt = (compute_status_timestamps db ns nP).declined_at := by
  simp only [InvitationService.apply_status] at h
  cases hu : get_user_by_email users db.inviteEmail with
  | none => simp [hu] at h
  | some u =>
    simp only [hu, Option.some.injEq] at h
    subst h
    set ca := (compute_status_timestamps db ns nP).accepted_at with hca
    set cd := (compute_status_timestamps db ns nP).declined_at with hcd
    set q1 : CEA := { db with userId := some u.id } with hq1
    set qY := upd_status q1 (uf ++ ["user"]) db.status ns with hqY
    set qX := upd_accepted qY.1 qY.2 ca with hqX
    set qZ := upd_declined qX.1 qX.2 cd with hqZ
    have hP_status : qZ.1.status = ns := by
      rw [hqZ, upd_declined_fst_status, hqX, upd_accepted_fst_status, hqY,
        upd_status_fst_status]
      rfl
    have hP_acc : qZ.1.acceptedAt = ca := by
      rw [hqZ, upd_declined_fst_acceptedAt, hqX, upd_accepted_fst_acceptedAt]
    have hP_dec : qZ.1.declinedAt = cd := by
      rw [hqZ, upd_declined_fst_declinedAt]
    have hY_acc : qY.1.acceptedAt = db.acceptedAt := by
      rw [hqY, upd_status_fst_acceptedAt]
    have hX_dec : qX.1.declinedAt = db.declinedAt := by
      rw [hqX, upd_accepted_fst_declinedAt, hqY, upd_status_fst_declinedAt]
    have hT_status : db.status ≠ ns → "status" ∈ qZ.2 := by
      intro hne
      rw [hqZ]
      refine upd_declined_snd_sub _ _ _ ?_
      rw [hqX]
      refine upd_accepted_snd_sub _ _ _ ?_
      rw [hqY]
      exact upd_status_snd_mem _ _ _ _ hne
    have hT_acc : db.acceptedAt ≠ ca → "accepted_at" ∈ qZ.2 := by
      intro hne
      rw [hqZ]
      refine upd_declined_snd_sub _ _ _ ?_
      rw [hqX]
      refine upd_accepted_snd_mem _ _ _ ?_
      rw [hY_acc]
      exact hne
    have hT_dec : db.declinedAt ≠ cd → "declined_at" ∈ qZ.2 := by
      intro hne
      rw [hqZ]
      refine upd_declined_snd_mem _ _ _ ?_
      rw [hX_dec]
      exact hne
    have hacc1 : qZ.1.status = ACCEPTED → qZ.1.acceptedAt ≠ none := by
      intro hst
      rw [hP_acc, hca, compute_accepted_some db ns nP (hP_status ▸ hst)]
      simp
    have hacc2 : ¬qZ.1.status = ACCEPTED → qZ.1.acceptedAt = none := by
      intro hst
      rw [hP_acc, hca, compute_accepted_none db ns nP (hP_status ▸ hst)]
    have hdec1 : qZ.1.status = DECLINED → qZ.1.declinedAt ≠ none := by
      intro hst
      rw [hP_dec, hcd, compute_declined_some db ns nP (hP_status ▸ hst)]
      simp
    have hdec2 : ¬qZ.1.status = DECLINED → qZ.1.declinedAt = none := by
      intro hst
      rw [hP_dec, hcd, compute_declined_none db ns nP (hP_status ▸ hst)]
    obtain ⟨hs, ha, hd⟩ :=
      save_db_policy qZ.1 stash db qZ.2 nS hacc1 hacc2 hdec1 hdec2
    refine ⟨?_, ?_, ?_⟩
    · rw [hs]
      by_cases hx : db.status = ns
      · rw [hP_status, hx]
        simp
      · rw [if_pos (hT_status hx), hP_status]
    · rw [ha]
      by_cases hx : db.acceptedAt = ca
      · rw [hP_acc, hx]
        simp
      · rw [if_pos (hT_acc hx), hP_acc]
    · rw [hd]
      by_cases hx : db.declinedAt = cd
      · rw [hP_dec, hx]
        simp
      · rw [if_pos (hT_dec hx), hP_dec]

/-- The `cpcea_status_timestamp_consistency` invariant on a persisted row. -/
def status_timestamp_consistent (i : CEA) : Prop :=
  (i.status = ACCEPTED → i.acceptedAt ≠ none ∧ i.declinedAt = none) ∧
  (i.status = DECLINED → i.declinedAt ≠ none ∧ i.acceptedAt = none) ∧
  (i.status = SENT → i.acceptedAt = none ∧ i.declinedAt = none)

/-- Claim C1: For every invitation (instance loaded from its persisted row) and
every status value, a successful `apply_status` leaves a persisted row in
which ACCEPTED implies `accepted_at` set and `declined_at` null, DECLINED
implies `declined_at` set and `accepted_at` null, and SENT implies both
null. -/
theorem C1_apply_status_invariant (db : CEA) (stash : Option Int)
    (users : List UserRec) (ns : Int) (uf : List String) (nP nS : Nat)
    (r : ApplyResult)
    (h : InvitationService.apply_status db stash db users ns uf nP nS = some r) :
    status_timestamp_consistent r.db := by
  obtain ⟨h1, h2, h3⟩ := apply_status_persists db stash users ns uf nP nS r h
  refine ⟨?_, ?_, ?_⟩
  · intro hst
    rw [h1] at hst
    subst hst
    rw [h2, h3]
    simp [compute_status_timestamps]
  · intro hst
    rw [h1] at hst
    subst hst
    rw [h2, h3]
    simp [compute_status_timestamps, DECLINED, ACCEPTED]
  · intro hst
    rw [h1] at hst
    subst hst
    rw [h2, h3]
    simp [compute_status_timestamps, SENT, ACCEPTED, DECLINED]

def c1_db : CEA := ⟨1, 1, none, 10, some "a@x.com", 0, 0, none, none⟩
def c1_users : List UserRec := [⟨7, "a@x.com", false, false⟩]
def c1_result : ApplyResult :=
  (InvitationService.apply_status c1_db none c1_db c1_users ACCEPTED [] 5 6).getD
    default

/-- Witness for C1: accepting a freshly loaded SENT invitation leaves a
consistent persisted row. -/
theorem C1_witness : status_timestamp_consistent c1_result.db :=
  C1_apply_status_invariant c1_db none c1_users ACCEPTED [] 5 6 c1_result
    (by decide)

/-! ## Claim C3: idempotence of `apply_status` (code bug) -/

def c3_db : CEA := ⟨1, 1, none, 10, some "a@x.com", 0, 0, none, none⟩
def c3_users : List UserRec := [⟨7, "a@x.com", false, false⟩]

/-- First `apply_status(inv, ACCEPTED)` on a freshly loaded instance. -/
def c3_first : Option ApplyResult :=
  InvitationService.apply_status c3_db none c3_db c3_users ACCEPTED [] 100 101

/-- Second `apply_status(inv, ACCEPTED)` on the same Python instance (which
still carries the `_old_status` stashed during the first save). -/
def c3_second : Option ApplyResult :=
  c3_first.bind (fun r1 =>
    InvitationService.apply_status r1.inst r1.stash r1.db c3_users ACCEPTED []
      200 201)

/-- Second `apply_status(inv, ACCEPTED)` after reloading the invitation from
the database (fresh instance, no stashed `_old_status`). -/
def c3_second_fresh : Option ApplyResult :=
  c3_first.bind (fun r1 =>
    InvitationService.apply_status r1.db none r1.db c3_users ACCEPTED [] 200 201)

/-- Claim C3 (code bug): re-applying ACCEPTED to the same instance does not
leave the persisted state identical.  `accepted_at` indeed does not drift,
but the second call persists a fresh `status_changed_at` (201 instead of
101), because `save()` reads the stale `_old_status` stashed by the *first*
call's `pre_save` (the body runs before `pre_save` re-stashes), sees
SENT ≠ ACCEPTED again, and re-touches the `auto_now` column.  After a fresh
reload between the calls the persisted state is identical, which is the
spec's intended behavior. -/
theorem C3_idempotence_code_bug :
    c3_first.map (fun r => r.db.acceptedAt) = some (some 100) ∧
    c3_second.map (fun r => r.db.acceptedAt) = some (some 100) ∧
    c3_first.map (fun r => r.db.statusChangedAt) = some 101 ∧
    c3_second.map (fun r => r.db.statusChangedAt) = some 201 ∧
    c3_second.map (fun r => r.db) ≠ c3_first.map (fun r => r.db) ∧
    c3_second_fresh.map (fun r => r.db) = c3_first.map (fun r => r.db) := by
  decide

/-! ## Claim C4: user re-binding inside `apply_status` (code bug) -/

/-- A valid persisted row (`cpcea_user_or_email_required` holds: the user is
bound) with no `invite_email`. -/
def c4_db : CEA := ⟨1, 1, some 7, 10, none, 0, 0, none, none⟩
def c4_users : List UserRec := [⟨7, "a@x.com", false, false⟩]

/-- A row already bound to user 7 whose `invite_email` belongs to a
different account (user 8). -/
def c4_db2 : CEA := ⟨1, 1, some 7, 10, some "b@x.com", 0, 0, none, none⟩
def c4_users2 : List UserRec :=
  [⟨7, "a@x.com", false, false⟩, ⟨8, "b@x.com", false, false⟩]

/-- Claim C4 (code bug): `apply_status` re-resolves and binds the user from
`invite_email` unconditionally, not only when the invitation is unbound.
On a valid user-bound row with null `invite_email` the lookup raises and the
whole transition fails with nothing persisted (first conjunct), and on a
bound row whose `invite_email` belongs to another account the bound user is
silently replaced (second conjunct). -/
theorem C4_user_binding_code_bug :
    InvitationService.apply_status c4_db none c4_db c4_users ACCEPTED [] 5 6
      = none ∧
    (InvitationService.apply_status c4_db2 none c4_db2 c4_users2 ACCEPTED [] 5 6).map
      (fun r => r.db.userId) = some (some 8) := by
  decide

end Cpa
